import Mathlib

/-!
Shallow embedding of `src/MarchMadnessScoreboard.py` (Guttman Madness
Scoreboard): the results normalizer `get_live_results`, the standings
engine `update_scores`, the display path `display_scoreboard`, the
archive writer `archive_scores`, and the snapshot-selection scan of
`load_previous_cumulative_scores`.  Python dicts keyed by strings are
embedded as functions `String → _` (for dicts read with `.get`) or as
association lists (for dicts that are enumerated); sets as `String → Bool`.
Machine integers are `Int`/`Nat` (Python ints are unbounded, so no
wrap-around is modelled).
-/

/-- Numeric value of a list of decimal digit characters. -/
def digitsVal (cs : List Char) : Nat :=
  cs.foldl (fun n c => n * 10 + (c.toNat - Char.toNat '0')) 0

/-- Characters of a string with leading and trailing whitespace removed
(Python `str.strip()`; also the stripping `int(...)` itself performs). -/
def stripChars (cs : List Char) : List Char :=
  ((cs.dropWhile Char.isWhitespace).reverse.dropWhile Char.isWhitespace).reverse

/-- Embedding of Python `int(...)` on already-stripped characters: an
optional sign followed by at least one ASCII decimal digit; anything else
raises (yielding `none`).  Python's digit-group underscores and non-ASCII
decimal digits are not modelled; no input of the repository uses them. -/
def pyIntOfChars : List Char → Option Int
  | [] => none
  | '+' :: rest =>
      if rest ≠ [] ∧ rest.all Char.isDigit then some (digitsVal rest) else none
  | '-' :: rest =>
      if rest ≠ [] ∧ rest.all Char.isDigit then some (-(digitsVal rest : Int))
      else none
  | cs => if cs.all Char.isDigit then some (digitsVal cs) else none

/-- Embedding of Python `int(s)` for a string `s`: `some` the parsed value,
`none` when `int` raises `ValueError`. -/
def pyInt (s : String) : Option Int := pyIntOfChars (stripChars s.data)

/-- Embedding of Python `str.strip()`. -/
def pyStrip (s : String) : String := String.mk (stripChars s.data)

/-- Result of a raw `score` field of the NCAA feed: the field may be absent
(`home.get("score", 0)` yields the default `0`), an integer, or a string
that `int(...)` may or may not parse. -/
inductive RawScore where
  | missing : RawScore
  | intVal : Int → RawScore
  | strVal : String → RawScore
deriving Repr, DecidableEq

/-- Embedding of `int(home.get("score", 0))` wrapped in `try/except` with
fallback `0` (lines 74-81): a missing field is the default `0`; an integer
passes through; a string parses as a decimal integer or falls back to `0`
when `int(...)` raises. -/
def parseScore : RawScore → Int
  | RawScore.missing => 0
  | RawScore.intVal n => n
  | RawScore.strVal s => (pyInt s).getD 0

/-- The `names` sub-dictionary of a competitor record (only the `short`
field is read by the code). -/
structure RawNames where
  short : Option String
deriving Repr, DecidableEq

/-- A competitor record of one game of the feed payload: `names` may be
absent (`comp.get("names", ...)` defaults to an empty dict) and the
score field is as above. -/
structure RawCompetitor where
  names : Option RawNames
  score : RawScore
deriving Repr, DecidableEq

/-- Embedding of `get_team_name` (lines 41-47):
`comp.get("names", ...).get("short", "").strip()`. -/
def get_team_name (comp : RawCompetitor) : String :=
  match comp.names with
  | none => ""
  | some ns => pyStrip (ns.short.getD "")

/-- One entry of the feed's `games` list, after the two
`game_obj.get("game", ...)`, `game.get("home"/"away", ...)` projections. -/
structure RawGame where
  home : RawCompetitor
  away : RawCompetitor
deriving Repr, DecidableEq

/-- One iteration of the loop of `get_live_results` (lines 67-88): the
accumulator is the pair of the `games` dict (team name → number of wins,
read back with `.get(team, 0)`, embedded as a total function) and the
`losers` set (embedded as its indicator function). -/
def processGame (acc : (String → Nat) × (String → Bool)) (g : RawGame) :
    (String → Nat) × (String → Bool) :=
  let home_team := get_team_name g.home
  let away_team := get_team_name g.away
  let home_score := parseScore g.home.score
  let away_score := parseScore g.away.score
  if home_score > away_score then
    (Function.update acc.1 home_team (acc.1 home_team + 1),
     fun t => acc.2 t || (t == away_team))
  else if away_score > home_score then
    (Function.update acc.1 away_team (acc.1 away_team + 1),
     fun t => acc.2 t || (t == home_team))
  else acc

/-- Embedding of `get_live_results` (lines 49-89) applied to an
already-fetched payload `games_list`: returns the per-team win counts of
the current cycle and the set of teams that lost at least one game.  The
HTTP fetch and the non-200 early return (which yields the same empty
dictionaries) are outside the embedding. -/
def get_live_results (games_list : List RawGame) :
    (String → Nat) × (String → Bool) :=
  games_list.foldl processGame (fun _ => 0, fun _ => false)

/-- Specification-side reading of one game: the emitted `(winner, loser)`
pair when one parsed score strictly exceeds the other, `none` on a tie. -/
def parsedWinner (g : RawGame) : Option (String × String) :=
  let hs := parseScore g.home.score
  let vs := parseScore g.away.score
  if hs > vs then some (get_team_name g.home, get_team_name g.away)
  else if vs > hs then some (get_team_name g.away, get_team_name g.home)
  else none

/-- A cell value of the `Team Seeds` sheet: `get_all_records` yields either
an integer or a string per cell. -/
inductive CellVal where
  | intVal : Int → CellVal
  | strVal : String → CellVal
deriving Repr, DecidableEq

/-- Embedding of `int(seed)` wrapped in `try/except` (lines 252-255): an
integer cell passes through, a string cell parses as a decimal integer or
raises (yielding `none`, which the caller turns into `0`). -/
def cellToInt : CellVal → Option Int
  | CellVal.intVal n => some n
  | CellVal.strVal s => pyInt s

/-- Embedding of the f-string interpolation of a seed cell value
(`f"... (\x7bseed\x7d)"`): Python `str` of an int or the string itself. -/
def showCell : CellVal → String
  | CellVal.intVal n => toString n
  | CellVal.strVal s => s

/-- A per-team archived record `\x7b"wins": w, "lost": b\x7d` as produced by
`update_scores` for `team_details_update` and read back as the baseline. -/
structure TeamRec where
  wins : Nat
  lost : Bool
deriving Repr, DecidableEq

/-- One cycle's normalized feed, as returned by `get_live_results`:
per-team win counts of today and today's loser set. -/
structure Feed where
  live : String → Nat
  losers : String → Bool

/-- `max_wins = 6` (line 240): the maximum number of games a team can win
in the tournament. -/
def max_wins : Nat := 6

/-- Everything the inner loop body of `update_scores` (lines 250-286)
computes for one picked team of one participant. -/
structure TeamCalc where
  total_wins : Nat
  lost : Bool
  current_points : Int
  team_max : Int
  display : String
deriving Repr, DecidableEq

/-- Embedding of the per-team loop body of `update_scores` (lines 250-286):
seed lookup with default `'N/A'` and fallback seed value `0`, archived
record lookup with default `\x7b"wins": 0, "lost": False\x7d`, today's wins from
`live_results.get(team, 0)`, the lost flag, current points, the locked or
open maximum, and the display entry appended to `teams_display`. -/
def computeTeam (team_seeds : String → Option CellVal) (feed : Feed)
    (prev_team_data : String → String → Option TeamRec)
    (participant team : String) : TeamCalc :=
  let seed := (team_seeds team).getD (CellVal.strVal "N/A")
  let seed_val := (cellToInt seed).getD 0
  let archived := (prev_team_data participant team).getD ⟨0, false⟩
  let archived_wins := archived.wins
  let archived_lost := archived.lost
  let todays_wins := feed.live team
  let total_wins := archived_wins + todays_wins
  let lost := archived_lost || feed.losers team
  let current_points := (total_wins : Int) * seed_val
  if lost then
    { total_wins := total_wins, lost := lost,
      current_points := current_points, team_max := current_points,
      display := "(L)" ++ team ++ " (" ++ showCell seed ++ ")" }
  else
    { total_wins := total_wins, lost := lost,
      current_points := current_points,
      team_max := seed_val * (max_wins : Int),
      display := team ++ " (" ++ showCell seed ++ ")" }

/-- The per-participant accumulator of `update_scores` (lines 245-248):
`part_current`, `part_max`, the `teams_display` list and the per-team
details.  The code stores the details in a dict keyed by the team name;
since `computeTeam` is deterministic in the team, a duplicated pick would
only overwrite an entry with an identical value, so an association list in
pick order is an equivalent embedding. -/
structure PartTotals where
  current : Int
  maxScore : Int
  teams_display : List String
  team_data : List (String × TeamRec)
deriving Repr, DecidableEq

/-- One iteration of the `for team in teams` loop of `update_scores`
(lines 250-286): the running totals and output lists after one more
picked team. -/
def partStep (team_seeds : String → Option CellVal) (feed : Feed)
    (prev_team_data : String → String → Option TeamRec)
    (participant : String) (acc : PartTotals) (team : String) : PartTotals :=
  let c := computeTeam team_seeds feed prev_team_data participant team
  { current := acc.current + c.current_points,
    maxScore := acc.maxScore + c.team_max,
    teams_display := acc.teams_display ++ [c.display],
    team_data := acc.team_data ++ [(team, ⟨c.total_wins, c.lost⟩)] }

/-- Embedding of the `for team in teams` loop of `update_scores`
(lines 250-286) for one participant. -/
def computeParticipant (team_seeds : String → Option CellVal) (feed : Feed)
    (prev_team_data : String → String → Option TeamRec)
    (participant : String) (teams : List String) : PartTotals :=
  teams.foldl (partStep team_seeds feed prev_team_data participant)
    { current := 0, maxScore := 0, teams_display := [], team_data := [] }

/-- One row of the display DataFrame built at lines 295-301: participant,
current score, max score, the `"current/max"` display string, and the
newline-joined teams column. -/
structure Row where
  participant : String
  current : Int
  maxScore : Int
  score_display : String
  teams_str : String
deriving Repr, DecidableEq

/-- A row after the `Place` column is assigned (line 303) and used as the
index (line 306). -/
structure RankedRow extends Row where
  place : Nat
deriving Repr, DecidableEq

/-- Generic insertion into a list sorted by the boolean relation `le`:
`x` goes in front of the first element `y` with `le x y`. -/
def insertBy {α : Type} (le : α → α → Bool) (x : α) : List α → List α
  | [] => [x]
  | y :: ys => if le x y then x :: y :: ys else y :: insertBy le x ys

/-- Stable insertion sort by the boolean relation `le`; embeds the
`DataFrame.sort_values` calls of lines 302 and 305 (whose tie order pandas
leaves unspecified; no claim depends on the order within exact ties). -/
def sortBy {α : Type} (le : α → α → Bool) : List α → List α
  | [] => []
  | x :: xs => insertBy le x (sortBy le xs)

/-- Descending comparison on `Int` as a boolean relation. -/
def geInt (a b : Int) : Bool := decide (b ≤ a)

/-- Embedding of `df["Current Score"].rank(method="min", ascending=False)`
(line 303) at one value `v` of the column `xs`: pandas sorts the column
descending, assigns ordinal ranks 1..n, and gives every member of a tie
group the least ordinal of the group — the 1-based position of the first
occurrence of `v` in the descending-sorted column. -/
def pandasRankMin (xs : List Int) (v : Int) : Nat :=
  ((sortBy geInt xs).takeWhile (fun w => w != v)).length + 1

/-- Ordering of the first `sort_values` (line 302): by `Current Score`
descending. -/
def byCurrentDesc (a b : Row) : Bool := decide (b.current ≤ a.current)

/-- Ordering of the second `sort_values` (line 305): by `Place` ascending,
then by `Remaining = Max Score - Current Score` descending. -/
def byPlaceThenRemaining (a b : RankedRow) : Bool :=
  decide (a.place < b.place) ||
    (decide (a.place = b.place) &&
      decide (b.maxScore - b.current ≤ a.maxScore - a.current))

/-- The DataFrame pipeline of `update_scores` lines 295-307 applied to the
built rows: sort by `Current Score` descending (line 302), assign the
`Place` rank column (line 303), then sort by `Place` ascending and
`Remaining = Max Score - Current Score` descending (lines 304-305; the
helper column is dropped again at line 307 and is inlined in
`byPlaceThenRemaining`). -/
def rankStage (rows : List Row) : List RankedRow :=
  let sorted1 := sortBy byCurrentDesc rows
  let currents := sorted1.map (fun r => r.current)
  sortBy byPlaceThenRemaining
    (sorted1.map (fun r =>
      { toRow := r, place := pandasRankMin currents r.current }))

/-- Embedding of `update_scores` (lines 223-308).  Inputs: the participant
picks in sheet order (`get_participants`), the seed dict, today's
normalized feed, and the baseline per-participant per-team data that the
code loads with `load_previous_team_data`.  Output: the display rows in
final order, each carrying its `Place`, and `team_details_update` (the
per-team details the code JSON-serializes per participant; the
serialization is injective, so the structured value is kept). -/
def update_scores (participants : List (String × List String))
    (team_seeds : String → Option CellVal) (feed : Feed)
    (prev_team_data : String → String → Option TeamRec) :
    List RankedRow × List (String × List (String × TeamRec)) :=
  let results := participants.map (fun pr =>
    (pr.1, computeParticipant team_seeds feed prev_team_data pr.1 pr.2))
  let rows : List Row := results.map (fun pr =>
    { participant := pr.1, current := pr.2.current,
      maxScore := pr.2.maxScore,
      score_display := toString pr.2.current ++ "/" ++ toString pr.2.maxScore,
      teams_str := String.intercalate "\n" pr.2.teams_display })
  let details := results.map (fun pr => (pr.1, pr.2.team_data))
  (rankStage rows, details)

/-- A Python value at the point `df = update_scores()` of
`display_scoreboard` (line 311): `update_scores` returns the 2-tuple
`(df, team_details_update)`, so the name `df` is bound to a tuple, not a
DataFrame. -/
inductive PyVal where
  | frame : List RankedRow → PyVal
  | pairVal : List RankedRow → List (String × List (String × TeamRec)) → PyVal

/-- The value of one display column of a row. -/
def colOf (r : RankedRow) : String → String
  | "Participant" => r.participant
  | "Current Score" => toString r.current
  | "Max Score" => toString r.maxScore
  | "Score/Potential" => r.score_display
  | "Teams (Seeds)" => r.teams_str
  | _ => ""

/-- Embedding of the subscript `df[[col, ...]]` (line 314): selecting a
list of columns succeeds on a DataFrame and raises a `TypeError` on a
tuple (Python tuple indices must be integers or slices). -/
def pySelectCols : PyVal → List String → Except String (List (List String))
  | PyVal.frame rows, cols => Except.ok (rows.map (fun r => cols.map (colOf r)))
  | PyVal.pairVal _ _, _ =>
      Except.error "TypeError: tuple indices must be integers or slices, not list"

/-- Embedding of `display_scoreboard` (lines 310-325) up to its first
operation on `df`: the value returned by `update_scores` (a tuple) is
bound to `df` and the column subscript of line 314 is evaluated.  The
chart and the `return df` that follow are only reached on success. -/
def display_scoreboard (participants : List (String × List String))
    (team_seeds : String → Option CellVal) (feed : Feed)
    (prev_team_data : String → String → Option TeamRec) :
    Except String (List (List String)) :=
  let df := update_scores participants team_seeds feed prev_team_data
  pySelectCols (PyVal.pairVal df.1 df.2)
    ["Participant", "Score/Potential", "Teams (Seeds)"]

/-- Embedding of the cell payload `archive_scores` writes (lines 150-153):
`[df.reset_index().columns.tolist()] + df.reset_index().values.tolist()` —
the header row followed by one row per participant, the `Place` index
first.  This is all the worksheet of the day receives. -/
def archive_scores (rows : List RankedRow) : List (List String) :=
  ["Place", "Participant", "Current Score", "Max Score", "Score/Potential",
    "Teams (Seeds)"] ::
  rows.map (fun r =>
    [toString r.place, r.participant, toString r.current,
      toString r.maxScore, r.score_display, r.teams_str])

/-- Splitting a character list at `-` separators (the field layout of the
`"%Y-%m-%d"` pattern). -/
def splitDash : List Char → List Char → List (List Char)
  | [], acc => [acc.reverse]
  | c :: rest, acc =>
      if c = '-' then acc.reverse :: splitDash rest []
      else splitDash rest (c :: acc)

/-- A field of 1 or 2 decimal digits whose value lies in `lo..hi`: the
pattern `time.strptime` uses for `%m` and `%d`. -/
def isNumField (lo hi : Nat) (cs : List Char) : Bool :=
  (cs.length == 1 || cs.length == 2) && cs.all Char.isDigit &&
    decide (lo ≤ digitsVal cs) && decide (digitsVal cs ≤ hi)

/-- Embedding of `time.strptime(title, "%Y-%m-%d")` succeeding
(lines 171-174): exactly four digits for `%Y`, a dash, one or two digits
in 1..12 for `%m`, a dash, one or two digits in 1..31 for `%d`, nothing
else (`time.strptime` checks field ranges but not the day against the
month).  Archive tabs written by `archive_scores` are always the
zero-padded canonical form `YYYY-MM-DD`, on which the string order used
by the scan agrees with date order. -/
def isDateTitle (s : String) : Bool :=
  match splitDash s.data [] with
  | [y, m, d] =>
      (y.length == 4) && y.all Char.isDigit &&
        isNumField 1 12 m && isNumField 1 31 d
  | _ => false

/-- A worksheet of the spreadsheet: its tab title and, when it is an
archive tab, the per-participant per-team baseline data its rows encode. -/
structure Worksheet where
  title : String
  data : String → String → Option TeamRec

/-- One iteration of the worksheet scan of
`load_previous_cumulative_scores` (lines 168-179): skip titles that do not
parse as dates, consider only titles strictly before today, and keep the
largest title seen so far (ties keep the first). -/
def scanStep (today : String) (prev : Option Worksheet) (ws : Worksheet) :
    Option Worksheet :=
  if isDateTitle ws.title = true ∧ ws.title < today then
    match prev with
    | none => some ws
    | some p => if p.title < ws.title then some ws else prev
  else prev

/-- The worksheet scan of `load_previous_cumulative_scores`
(lines 164-179): the most recent date-titled worksheet strictly before
today, if any. -/
def scanPrev (sheets : List Worksheet) (today : String) : Option Worksheet :=
  sheets.foldl (scanStep today) none

/-- Modelled from the spec: `load_previous_team_data`, called by
`update_scores` at line 238, is not among the files under `src/` (the repo
holds near-duplicate revisions of this script; only this caller and the
analogous `load_previous_cumulative_scores` are).  Per spec §2
(SnapshotStore), §4.3 and §6 (Archive) it reconstructs
`\x7bparticipant: \x7bteam: \x7b"wins": x, "lost": bool\x7d\x7d\x7d` from the archive tab of
the most recent date strictly before today — the same scan as
`load_previous_cumulative_scores` — and returns empty data when no such
tab exists ("first run of the tournament"). -/
def load_previous_team_data (sheets : List Worksheet) (today : String) :
    String → String → Option TeamRec :=
  match scanPrev sheets today with
  | some ws => ws.data
  | none => fun _ _ => none

/-- The per-team detail record `update_scores` emits for archival
(line 286): exactly the evolved baseline state of that team. -/
def teamDetailOf (c : TeamCalc) : TeamRec := ⟨c.total_wins, c.lost⟩

/-- The cross-cycle evolution of one picked team's state: one refresh
cycle starting from baseline record `s` produces the detail record of
`computeTeam` (spec §4.3: that record is archived and becomes the next
day's baseline). -/
def cycleState (team_seeds : String → Option CellVal) (participant team : String)
    (s : TeamRec) (feed : Feed) : TeamRec :=
  teamDetailOf (computeTeam team_seeds feed (fun _ _ => some s) participant team)

/-- The `max_points` of one picked team on a cycle starting from baseline
record `s`. -/
def maxPointsAt (team_seeds : String → Option CellVal) (participant team : String)
    (s : TeamRec) (feed : Feed) : Int :=
  (computeTeam team_seeds feed (fun _ _ => some s) participant team).team_max

/-- The parsed seed value of a team (`int(team_seeds.get(team, "N/A"))`
with fallback `0`). -/
def seedValOf (team_seeds : String → Option CellVal) (team : String) : Int :=
  (cellToInt ((team_seeds team).getD (CellVal.strVal "N/A"))).getD 0

/-- An empty baseline: no archive tab yet. -/
def emptyPrev : String → String → Option TeamRec := fun _ _ => none

/-- A cycle with no completed games. -/
def noFeed : Feed := { live := fun _ => 0, losers := fun _ => false }

/-- The picks of the end-to-end scenario of spec §8. -/
def alicePicks : List (String × List String) :=
  [("Alice", ["TeamA", "TeamB", "TeamC", "TeamD"])]

/-- The seed table of the end-to-end scenario of spec §8. -/
def aliceSeeds : String → Option CellVal := fun t =>
  if t = "TeamA" then some (CellVal.intVal 1)
  else if t = "TeamB" then some (CellVal.intVal 8)
  else if t = "TeamC" then some (CellVal.intVal 5)
  else if t = "TeamD" then some (CellVal.intVal 12)
  else none

/-- Today's events of the end-to-end scenario of spec §8: one win by
`TeamA`, one loss by `TeamB`. -/
def aliceFeed : Feed :=
  { live := fun t => if t = "TeamA" then 1 else 0,
    losers := fun t => t == "TeamB" }

/-- A seed table holding only `TeamA` at seed 1. -/
def seedsA1 : String → Option CellVal :=
  fun t => if t = "TeamA" then some (CellVal.intVal 1) else none

/-- A feed in which `TeamA` wins one game and nobody loses (the feed shape
that exercises a win credited to an already-eliminated team). -/
def feedWinA : Feed :=
  { live := fun t => if t = "TeamA" then 1 else 0, losers := fun _ => false }

/-- A feed in which `TeamA` is credited with seven wins in one batch. -/
def feedWinA7 : Feed :=
  { live := fun t => if t = "TeamA" then 7 else 0, losers := fun _ => false }

/-- A baseline holding, for every participant, `TeamZ` already eliminated
with `w` archived wins. -/
def prevZ (w : Nat) : String → String → Option TeamRec :=
  fun _ t => if t = "TeamZ" then some ⟨w, true⟩ else none

/-- A roster whose only participant picked the unseeded `TeamZ`. -/
def zPicks : List (String × List String) := [("Alice", ["TeamZ"])]

/-- A roster with a blank second cell (`row["Team2"]` is the empty
string). -/
def blankPicks : List (String × List String) := [("Alice", ["TeamA", ""])]

/-- A seed table holding only `TeamA` at seed 2. -/
def seedsA2 : String → Option CellVal :=
  fun t => if t = "TeamA" then some (CellVal.intVal 2) else none

/-- A seed table holding only `TeamN` at seed `-1` (a malformed sheet
cell the code accepts: `int(-1)` succeeds). -/
def seedsNeg : String → Option CellVal :=
  fun t => if t = "TeamN" then some (CellVal.intVal (-1)) else none

/-- A feed in which nobody wins and `TeamZ` loses. -/
def zLossFeed : Feed := { live := fun _ => 0, losers := fun t => t == "TeamZ" }

/-- C2's scenario: what the engine computes for each of Alice's picks. -/
def aliceCalc (team : String) : TeamCalc :=
  computeTeam aliceSeeds aliceFeed emptyPrev "Alice" team

/-- C1: the compute-and-display path never completes.  `update_scores`
returns the pair `(df, team_details_update)`, `display_scoreboard` binds
that pair to `df` and subscripts it with a column list, which raises a
`TypeError` on a tuple — for every combination of inputs, not just bad
ones, so the cycle crashes instead of returning a leaderboard. -/
theorem display_scoreboard_always_raises :
    ∀ (participants : List (String × List String))
      (team_seeds : String → Option CellVal) (feed : Feed)
      (prev_team_data : String → String → Option TeamRec),
      display_scoreboard participants team_seeds feed prev_team_data =
        Except.error
          "TypeError: tuple indices must be integers or slices, not list" :=
  fun _ _ _ _ => rfl

/-- C2 counterexample: on the spec §8 scenario the engine's per-team
ceilings are 6, 0, 30 and 72, so Alice's max score is 108, not the 103
the claim states (103 adds TeamA's current points instead of its
ceiling). -/
theorem alice_max_is_108_not_103 :
    (update_scores alicePicks aliceSeeds aliceFeed emptyPrev).1.map
        (fun r => (r.participant, r.current, r.maxScore)) =
      [("Alice", 1, 108)] ∧
    ¬ (update_scores alicePicks aliceSeeds aliceFeed emptyPrev).1.map
        (fun r => r.maxScore) = [103] := by
  constructor
  · rfl
  · decide

/-- C2 amended: the end-to-end scenario with Alice's `max_score = 108`
(the sum 6 + 0 + 30 + 72 of the per-team ceilings the claim itself
lists): per-team states and Alice's totals exactly as computed by the
engine. -/
theorem alice_end_to_end :
    aliceCalc "TeamA" =
      { total_wins := 1, lost := false, current_points := 1, team_max := 6,
        display := "TeamA (1)" } ∧
    aliceCalc "TeamB" =
      { total_wins := 0, lost := true, current_points := 0, team_max := 0,
        display := "(L)TeamB (8)" } ∧
    aliceCalc "TeamC" =
      { total_wins := 0, lost := false, current_points := 0, team_max := 30,
        display := "TeamC (5)" } ∧
    aliceCalc "TeamD" =
      { total_wins := 0, lost := false, current_points := 0, team_max := 72,
        display := "TeamD (12)" } ∧
    (update_scores alicePicks aliceSeeds aliceFeed emptyPrev).1.map
        (fun r => (r.participant, r.current, r.maxScore, r.place)) =
      [("Alice", 1, 108, 1)] ∧
    (update_scores alicePicks aliceSeeds aliceFeed emptyPrev).2 =
      [("Alice",
        [("TeamA", ⟨1, false⟩), ("TeamB", ⟨0, true⟩),
         ("TeamC", ⟨0, false⟩), ("TeamD", ⟨0, false⟩)])] := by
  refine ⟨rfl, rfl, rfl, rfl, rfl, rfl⟩

/-- C5: the archived payload does not determine the per-team wins.  Two
cycles whose team detail states differ (TeamZ archived with 1 vs 2 wins)
produce byte-identical archive payloads: `archive_scores` writes only the
display columns, and `team_details_update` — computed expressly for
archival — is never persisted, so the next day's baseline cannot be
reconstructed from an archived record. -/
theorem archive_drops_team_details :
    archive_scores
        (update_scores zPicks (fun _ => none) zLossFeed (prevZ 1)).1 =
      archive_scores
        (update_scores zPicks (fun _ => none) zLossFeed (prevZ 2)).1 ∧
    ¬ (update_scores zPicks (fun _ => none) zLossFeed (prevZ 1)).2 =
      (update_scores zPicks (fun _ => none) zLossFeed (prevZ 2)).2 := by
  constructor
  · decide
  · decide

/-- C3 counterexample: a team marked eliminated in the baseline (TeamZ?
no — TeamA archived with 2 wins and `lost = true`, seed 1) has
`max_points = 2` on a quiet cycle, but a feed that credits it one more
win moves its `max_points` to 3: the ceiling of an eliminated team is not
locked against further feed wins. -/
theorem eliminated_ceiling_moves_on_feed_win :
    (⟨2, true⟩ : TeamRec).lost = true ∧
    maxPointsAt seedsA1 "Alice" "TeamA" ⟨2, true⟩ noFeed = 2 ∧
    maxPointsAt seedsA1 "Alice" "TeamA" ⟨2, true⟩ feedWinA = 3 ∧
    ¬ (3 : Int) = 2 := by
  refine ⟨rfl, rfl, rfl, by decide⟩

/-- C8 counterexample: the engine never caps wins: a single batch
crediting TeamA with seven wins yields `total_wins = 7 > max_wins`. -/
theorem total_wins_can_exceed_cap :
    (computeTeam seedsA1 feedWinA7 emptyPrev "Alice" "TeamA").total_wins = 7 ∧
    ¬ (computeTeam seedsA1 feedWinA7 emptyPrev "Alice" "TeamA").total_wins
        ≤ max_wins := by
  constructor
  · rfl
  · decide

/-- C9 counterexample: a blank roster cell is not skipped: with picks
`["TeamA", ""]` the blank slot appears in the participant's output, both
as the entry `" (N/A)"` of the teams column and as a keyed entry of the
per-team details. -/
theorem blank_pick_appears_in_output :
    (update_scores blankPicks seedsA2 noFeed emptyPrev).1.map
        (fun r => r.teams_str) = ["TeamA (2)\n (N/A)"] ∧
    (update_scores blankPicks seedsA2 noFeed emptyPrev).2 =
      [("Alice", [("TeamA", ⟨0, false⟩), ("", ⟨0, false⟩)])] := by
  exact ⟨rfl, rfl⟩

/-- C10 counterexample: with a negative seed cell (`-1`, which `int`
accepts) a participant whose single pick has `total_wins = 0 ≤ max_wins`
still gets `max_score = -6 < 0 = current_score`: the claimed precondition
does not suffice. -/
theorem negative_seed_breaks_max_bound :
    (computeTeam seedsNeg noFeed emptyPrev "Bob" "TeamN").total_wins
        ≤ max_wins ∧
    (computeParticipant seedsNeg noFeed emptyPrev "Bob" ["TeamN"]).maxScore <
      (computeParticipant seedsNeg noFeed emptyPrev "Bob" ["TeamN"]).current := by
  constructor
  · decide
  · decide

/-- One game's effect on the per-team win counts of `get_live_results`. -/
theorem processGame_fst (acc : (String → Nat) × (String → Bool)) (g : RawGame)
    (t : String) :
    (processGame acc g).1 t =
      acc.1 t + (if (parsedWinner g).map Prod.fst = some t then 1 else 0) := by
  unfold processGame parsedWinner
  by_cases h1 : parseScore g.away.score < parseScore g.home.score
  · simp only [h1, gt_iff_lt, if_pos, Option.map_some, Option.some.injEq]
    by_cases h2 : t = get_team_name g.home
    · simp [Function.update_apply, h2]
    · simp [Function.update_apply, h2, Ne.symm h2]
  · by_cases h3 : parseScore g.home.score < parseScore g.away.score
    · simp only [gt_iff_lt, h1, if_neg, h3, if_pos, Option.map_some,
        Option.some.injEq]
      by_cases h2 : t = get_team_name g.away
      · simp [Function.update_apply, h2]
      · simp [Function.update_apply, h2, Ne.symm h2]
    · simp [h1, h3]

/-- One game's effect on the loser set of `get_live_results`. -/
theorem processGame_snd (acc : (String → Nat) × (String → Bool)) (g : RawGame)
    (t : String) :
    (processGame acc g).2 t =
      (acc.2 t || ((parsedWinner g).map Prod.snd == some t)) := by
  unfold processGame parsedWinner
  by_cases h1 : parseScore g.away.score < parseScore g.home.score
  · simp only [h1, gt_iff_lt, if_pos, Option.map_some]
    by_cases h2 : t = get_team_name g.away
    · simp [h2, beq_iff_eq, eq_comm]
    · simp [beq_eq_false_iff_ne.mpr h2, beq_eq_false_iff_ne.mpr (Ne.symm h2)]
  · by_cases h3 : parseScore g.home.score < parseScore g.away.score
    · simp only [gt_iff_lt, h1, if_neg, h3, if_pos, Option.map_some]
      by_cases h2 : t = get_team_name g.home
      · simp [h2, beq_iff_eq, eq_comm]
      · simp [beq_eq_false_iff_ne.mpr h2, beq_eq_false_iff_ne.mpr (Ne.symm h2)]
    · simp [h1, h3]

/-- The fold of `get_live_results` counts, per team, the games whose
emitted winner is that team, and collects as losers the teams that lost
some game. -/
theorem foldl_processGame (gs : List RawGame) :
    ∀ (acc : (String → Nat) × (String → Bool)) (t : String),
      (gs.foldl processGame acc).1 t =
        acc.1 t +
          gs.countP (fun g => (parsedWinner g).map Prod.fst == some t) ∧
      (gs.foldl processGame acc).2 t =
        (acc.2 t ||
          gs.any (fun g => (parsedWinner g).map Prod.snd == some t)) := by
  induction gs with
  | nil => intro acc t; simp
  | cons g gs ih =>
    intro acc t
    obtain ⟨ihf, ihs⟩ := ih (processGame acc g) t
    simp only [List.foldl_cons, List.countP_cons, List.any_cons]
    constructor
    · rw [ihf, processGame_fst]
      by_cases h : (parsedWinner g).map Prod.fst = some t
      · simp [h]; omega
      · simp [h]
    · rw [ihs, processGame_snd]
      by_cases h : (parsedWinner g).map Prod.snd = some t
      · simp [h]
      · simp [h, Bool.or_assoc]

/-- C7: for every feed payload, `get_live_results` credits a team with
exactly one win per game in which its side's parsed score strictly
exceeds the other's, and marks exactly the strictly-out-scored sides as
losers; a tied (or incomplete, hence tied-at-0) game emits nothing, and a
missing or unparseable score field is read as `0` instead of aborting the
batch (`get_live_results` is total). -/
theorem live_results_strict_margin :
    ∀ (gs : List RawGame) (t : String),
      (get_live_results gs).1 t =
        gs.countP (fun g => (parsedWinner g).map Prod.fst == some t) ∧
      (get_live_results gs).2 t =
        gs.any (fun g => (parsedWinner g).map Prod.snd == some t) ∧
      (∀ g : RawGame,
        parsedWinner g = none ↔
          parseScore g.home.score = parseScore g.away.score) ∧
      parseScore RawScore.missing = 0 ∧
      (∀ s : String, pyInt s = none → parseScore (RawScore.strVal s) = 0) := by
  intro gs t
  obtain ⟨hf, hs⟩ := foldl_processGame gs (fun _ => 0, fun _ => false) t
  refine ⟨?_, ?_, ?_, rfl, ?_⟩
  · simpa [get_live_results] using hf
  · simpa [get_live_results] using hs
  · intro g
    unfold parsedWinner
    by_cases h1 : parseScore g.away.score < parseScore g.home.score
    · simp only [h1, gt_iff_lt, if_pos]
      constructor
      · intro h; cases h
      · intro h; omega
    · by_cases h3 : parseScore g.home.score < parseScore g.away.score
      · simp only [gt_iff_lt, h1, if_neg, h3, if_pos]
        constructor
        · intro h; cases h
        · intro h; omega
      · simp only [gt_iff_lt, h1, if_neg, h3]
        constructor
        · intro _; omega
        · intro _; rfl
  · intro s h
    simp [parseScore, h]

/-- Inserting an element is a permutation of consing it. -/
theorem insertBy_perm {α : Type} (le : α → α → Bool) (x : α) (l : List α) :
    List.Perm (insertBy le x l) (x :: l) := by
  induction l with
  | nil => exact List.Perm.refl _
  | cons y ys ih =>
    unfold insertBy
    by_cases h : le x y
    · rw [if_pos h]
    · rw [if_neg h]
      exact (List.Perm.cons y ih).trans (List.Perm.swap x y ys)

/-- The embedded sort is a permutation of its input. -/
theorem sortBy_perm {α : Type} (le : α → α → Bool) (l : List α) :
    List.Perm (sortBy le l) l := by
  induction l with
  | nil => exact List.Perm.refl _
  | cons x xs ih =>
    exact (insertBy_perm le x (sortBy le xs)).trans (List.Perm.cons x ih)

/-- Insertion preserves descending sortedness over `Int`. -/
theorem insertBy_pairwise_geInt (x : Int) (l : List Int)
    (hl : l.Pairwise (fun a b => b ≤ a)) :
    (insertBy geInt x l).Pairwise (fun a b => b ≤ a) := by
  induction l with
  | nil => simp [insertBy]
  | cons y ys ih =>
    obtain ⟨hy, hys⟩ := List.pairwise_cons.mp hl
    unfold insertBy
    by_cases h : geInt x y
    · rw [if_pos h]
      have hxy : y ≤ x := of_decide_eq_true h
      refine List.pairwise_cons.mpr ⟨?_, hl⟩
      intro z hz
      rcases List.mem_cons.mp hz with hz | hz
      · rw [hz]; exact hxy
      · exact (hy z hz).trans hxy
    · rw [if_neg h]
      have hyx : x ≤ y := by
        have : ¬ y ≤ x := fun hc => h (decide_eq_true hc)
        exact le_of_lt (lt_of_not_le this)
      refine List.pairwise_cons.mpr ⟨?_, ih hys⟩
      intro z hz
      rcases List.mem_cons.mp ((insertBy_perm geInt x ys).mem_iff.mp hz) with
        hz | hz
      · rw [hz]; exact hyx
      · exact hy z hz

/-- The column sorted descending is pairwise descending. -/
theorem sortBy_geInt_pairwise (l : List Int) :
    (sortBy geInt l).Pairwise (fun a b => b ≤ a) := by
  induction l with
  | nil => simp [sortBy]
  | cons x xs ih => exact insertBy_pairwise_geInt x _ ih

/-- On a descending-sorted column, the 0-based position of the first
occurrence of a present value equals the number of strictly greater
entries. -/
theorem takeWhile_length_sorted :
    ∀ (l : List Int) (v : Int), l.Pairwise (fun a b => b ≤ a) → v ∈ l →
      (l.takeWhile (fun w => w != v)).length =
        l.countP (fun w => decide (v < w)) := by
  intro l
  induction l with
  | nil => intro v _ hv; cases hv
  | cons a t ih =>
    intro v hp hv
    obtain ⟨ha, ht⟩ := List.pairwise_cons.mp hp
    by_cases hav : a = v
    · subst hav
      have h0 : t.countP (fun w => decide (a < w)) = 0 := by
        refine List.countP_eq_zero.mpr ?_
        intro w hw
        simpa using not_lt_of_le (ha w hw)
      simp [List.takeWhile_cons, List.countP_cons, h0]
    · have hvt : v ∈ t := by
        rcases List.mem_cons.mp hv with h | h
        · exact absurd h.symm hav
        · exact h
      have hva : v < a := lt_of_le_of_ne (ha v hvt) (fun h => hav h.symm)
      have hbne : (a != v) = true := bne_iff_ne.mpr hav
      simp [List.takeWhile_cons, List.countP_cons, hbne, hva, ih v ht hvt]
/-- The pandas minimum rank of a present value is one more than the count
of strictly greater column entries. -/
theorem pandasRankMin_eq (xs : List Int) (v : Int) (hv : v ∈ xs) :
    pandasRankMin xs v = 1 + xs.countP (fun w => decide (v < w)) := by
  unfold pandasRankMin
  have hperm := sortBy_perm geInt xs
  rw [takeWhile_length_sorted _ v (sortBy_geInt_pairwise xs)
      (hperm.mem_iff.mpr hv), hperm.countP_eq]
  omega

/-- Every row of the ranking stage carries, as its `Place`, one more than
the number of rows whose current score strictly exceeds its own. -/
theorem rankStage_place (rows : List Row) :
    ∀ r ∈ rankStage rows,
      r.place = 1 + (rankStage rows).countP
          (fun q => decide (r.current < q.current)) := by
  intro r hr
  unfold rankStage at hr ⊢
  obtain ⟨row, hrow, hre⟩ := List.mem_map.mp
    ((sortBy_perm byPlaceThenRemaining _).mem_iff.mp hr)
  subst hre
  have hcur : row.current ∈
      (sortBy byCurrentDesc rows).map (fun q => q.current) :=
    List.mem_map_of_mem _ hrow
  have h1 := pandasRankMin_eq _ row.current hcur
  show pandasRankMin _ row.current = _
  rw [h1, (sortBy_perm byPlaceThenRemaining _).countP_eq,
    List.countP_map, List.countP_map]
  rfl

/-- C4: every row's `Place` is the standard competition (minimum) rank of
its current score among all rows, descending — ties share the rank — and
on the column `[30, 30, 20]` the assigned ranks are `[1, 1, 3]`. -/
theorem rank_is_competition_rank :
    ∀ (participants : List (String × List String))
      (team_seeds : String → Option CellVal) (feed : Feed)
      (prev_team_data : String → String → Option TeamRec),
      (∀ r ∈ (update_scores participants team_seeds feed prev_team_data).1,
        r.place =
          1 + (update_scores participants team_seeds feed prev_team_data).1.countP
                (fun q => decide (r.current < q.current))) ∧
      [30, 30, 20].map (pandasRankMin [30, 30, 20]) = [1, 1, 3] := by
  intro ps seeds feed prev
  constructor
  · intro r hr
    exact rankStage_place _ r hr
  · decide

/-- The accumulated wins of one picked team after a cycle. -/
theorem computeTeam_total_wins (seeds : String → Option CellVal) (feed : Feed)
    (prev : String → String → Option TeamRec) (p t : String) :
    (computeTeam seeds feed prev p t).total_wins =
      ((prev p t).getD ⟨0, false⟩).wins + feed.live t := by
  simp only [computeTeam]
  split <;> rfl

/-- The lost flag of one picked team after a cycle. -/
theorem computeTeam_lost (seeds : String → Option CellVal) (feed : Feed)
    (prev : String → String → Option TeamRec) (p t : String) :
    (computeTeam seeds feed prev p t).lost =
      (((prev p t).getD ⟨0, false⟩).lost || feed.losers t) := by
  simp only [computeTeam]
  split <;> rfl

/-- The current points of one picked team are its total wins times its
parsed seed value. -/
theorem computeTeam_current_points (seeds : String → Option CellVal)
    (feed : Feed) (prev : String → String → Option TeamRec) (p t : String) :
    (computeTeam seeds feed prev p t).current_points =
      ((computeTeam seeds feed prev p t).total_wins : Int) *
        seedValOf seeds t := by
  rw [computeTeam_total_wins]
  simp only [computeTeam, seedValOf]
  split <;> rfl

/-- The ceiling of one picked team: locked at its current points when it
is lost, else its seed value times `max_wins`. -/
theorem computeTeam_team_max (seeds : String → Option CellVal) (feed : Feed)
    (prev : String → String → Option TeamRec) (p t : String) :
    (computeTeam seeds feed prev p t).team_max =
      (if (computeTeam seeds feed prev p t).lost then
        (computeTeam seeds feed prev p t).current_points
      else seedValOf seeds t * (max_wins : Int)) := by
  simp only [computeTeam, seedValOf]
  split
  · next h => simp [h]
  · next h => simp [h]

/-- A cycle's evolved state: wins accumulate, the lost flag latches. -/
theorem cycleState_eq (seeds : String → Option CellVal) (p t : String)
    (s : TeamRec) (f : Feed) :
    cycleState seeds p t s f = ⟨s.wins + f.live t, s.lost || f.losers t⟩ := by
  unfold cycleState teamDetailOf
  rw [TeamRec.mk.injEq]
  constructor
  · rw [computeTeam_total_wins]
    rfl
  · rw [computeTeam_lost]
    rfl

/-- An eliminated state that is credited no further wins is a fixed point
of the cycle evolution. -/
theorem cycleState_fixed (seeds : String → Option CellVal) (p t : String)
    (s : TeamRec) (hs : s.lost = true) (f : Feed) (hf : f.live t = 0) :
    cycleState seeds p t s f = s := by
  rw [cycleState_eq, hs, hf]
  rcases s with ⟨w, l⟩
  simp at hs
  simp [hs]

/-- The cycle evolution leaves an eliminated, no-longer-winning team's
state unchanged over any sequence of feeds. -/
theorem foldl_cycleState_fixed (seeds : String → Option CellVal) (p t : String)
    (s : TeamRec) (hs : s.lost = true) :
    ∀ feeds : List Feed, (∀ f ∈ feeds, f.live t = 0) →
      feeds.foldl (cycleState seeds p t) s = s := by
  intro feeds
  induction feeds with
  | nil => intro _; rfl
  | cons f fs ih =>
    intro h
    rw [List.foldl_cons, cycleState_fixed seeds p t s hs f
      (h f (List.mem_cons_self f fs))]
    exact ih (fun g hg => h g (List.mem_cons_of_mem f hg))

/-- The ceiling of an eliminated team on a cycle that credits it no wins
is its locked current points. -/
theorem maxPointsAt_locked (seeds : String → Option CellVal) (p t : String)
    (s : TeamRec) (hs : s.lost = true) (f : Feed) (hf : f.live t = 0) :
    maxPointsAt seeds p t s f = (s.wins : Int) * seedValOf seeds t := by
  unfold maxPointsAt
  rw [computeTeam_team_max]
  have hl : (computeTeam seeds f (fun _ _ => some s) p t).lost = true := by
    rw [computeTeam_lost]
    simp [hs]
  rw [if_pos hl, computeTeam_current_points, computeTeam_total_wins]
  simp [hf]

/-- C3 (amended): an eliminated team's ceiling equals its current points
within a cycle; a non-eliminated team's ceiling is `seed_val * max_wins`;
and once a team is marked eliminated, its state and its `max_points` stay
unchanged over all subsequent cycles in which the feed credits it no
further win (the engine keeps adding `todays_wins` even for eliminated
teams, so a feed win for an eliminated team would move its locked
ceiling). -/
theorem eliminated_locks_ceiling :
    ∀ (seeds : String → Option CellVal) (feed : Feed)
      (prev : String → String → Option TeamRec) (p t : String)
      (s : TeamRec) (feeds : List Feed),
      ((computeTeam seeds feed prev p t).lost = true →
        (computeTeam seeds feed prev p t).team_max =
          (computeTeam seeds feed prev p t).current_points) ∧
      ((computeTeam seeds feed prev p t).lost = false →
        (computeTeam seeds feed prev p t).team_max =
          seedValOf seeds t * (max_wins : Int)) ∧
      (s.lost = true → (∀ f ∈ feeds, f.live t = 0) →
        feeds.foldl (cycleState seeds p t) s = s ∧
        ∀ f ∈ feeds, maxPointsAt seeds p t s f =
          (s.wins : Int) * seedValOf seeds t) := by
  intro seeds feed prev p t s feeds
  refine ⟨?_, ?_, ?_⟩
  · intro h
    rw [computeTeam_team_max, if_pos h]
  · intro h
    rw [computeTeam_team_max, h]
    simp
  · intro hs h
    refine ⟨foldl_cycleState_fixed seeds p t s hs feeds h, ?_⟩
    intro f hf
    exact maxPointsAt_locked seeds p t s hs f (h f hf)

/-- Witness for C3's amended theorem: TeamA archived eliminated with two
wins and seed 1 keeps state `(2, eliminated)` and locked ceiling `2`
across a quiet cycle. -/
theorem eliminated_locks_ceiling_wit :
    List.foldl (cycleState seedsA1 "Alice" "TeamA") ⟨2, true⟩ [noFeed] =
        ⟨2, true⟩ ∧
    maxPointsAt seedsA1 "Alice" "TeamA" ⟨2, true⟩ noFeed = 2 := by
  have hf : ∀ f ∈ [noFeed], f.live "TeamA" = 0 := by
    intro f hfm
    rw [List.mem_singleton] at hfm
    rw [hfm]
    rfl
  have h := (eliminated_locks_ceiling seedsA1 noFeed emptyPrev "Alice" "TeamA"
      ⟨2, true⟩ [noFeed]).2.2 rfl hf
  refine ⟨h.1, ?_⟩
  rw [h.2 noFeed (List.mem_singleton.mpr rfl)]
  decide

/-- C8 (amended): across any sequence of cycles the accumulated wins of a
picked team equal its baseline wins plus the sum of its per-cycle feed
credits — the engine propagates but never enforces the `max_wins` cap, so
the bound `total_wins ≤ max_wins` holds exactly when the inputs respect
it. -/
theorem wins_accumulate :
    ∀ (seeds : String → Option CellVal) (p t : String) (s : TeamRec)
      (feeds : List Feed),
      (feeds.foldl (cycleState seeds p t) s).wins =
        s.wins + (feeds.map (fun f => f.live t)).sum ∧
      (s.wins + (feeds.map (fun f => f.live t)).sum ≤ max_wins →
        (feeds.foldl (cycleState seeds p t) s).wins ≤ max_wins) := by
  have key : ∀ (seeds : String → Option CellVal) (p t : String)
      (feeds : List Feed) (s : TeamRec),
      (feeds.foldl (cycleState seeds p t) s).wins =
        s.wins + (feeds.map (fun f => f.live t)).sum := by
    intro seeds p t feeds
    induction feeds with
    | nil => intro s; simp
    | cons f fs ih =>
      intro s
      rw [List.foldl_cons, ih, cycleState_eq]
      simp
      omega
  intro seeds p t s feeds
  refine ⟨key seeds p t feeds s, ?_⟩
  intro h
  rw [key seeds p t feeds s]
  exact h

/-- Witness for C8's amended theorem: starting from zero wins, one cycle
crediting one win stays within the cap. -/
theorem wins_accumulate_wit :
    (List.foldl (cycleState seedsA1 "Alice" "TeamA") ⟨0, false⟩
        [feedWinA]).wins ≤ max_wins := by
  refine (wins_accumulate seedsA1 "Alice" "TeamA" ⟨0, false⟩ [feedWinA]).2 ?_
  decide

/-- The parsed seed value of a name absent from the seed sheet is 0 (the
default cell `'N/A'` fails `int(...)`). -/
theorem seedValOf_of_none (seeds : String → Option CellVal) (t : String)
    (h : seeds t = none) : seedValOf seeds t = 0 := by
  unfold seedValOf
  rw [h]
  decide

/-- C9 (amended): a blank roster cell is processed like any other team
name, not skipped: when the blank name is absent from the seed sheet its
slot contributes 0 to both the current score and the ceiling, but the
slot still appears in the participant's output — it adds an entry to the
per-team details (and a `" (N/A)"` line to the teams display). -/
theorem blank_pick_contributes_nothing :
    ∀ (seeds : String → Option CellVal) (feed : Feed)
      (prev : String → String → Option TeamRec) (p : String)
      (teams : List String),
      seeds "" = none →
      (computeTeam seeds feed prev p "").current_points = 0 ∧
      (computeTeam seeds feed prev p "").team_max = 0 ∧
      (computeParticipant seeds feed prev p (teams ++ [""])).current =
        (computeParticipant seeds feed prev p teams).current ∧
      (computeParticipant seeds feed prev p (teams ++ [""])).maxScore =
        (computeParticipant seeds feed prev p teams).maxScore ∧
      (computeParticipant seeds feed prev p (teams ++ [""])).team_data =
        (computeParticipant seeds feed prev p teams).team_data ++
          [("", teamDetailOf (computeTeam seeds feed prev p ""))] := by
  intro seeds feed prev p teams h
  have hsv : seedValOf seeds "" = 0 := seedValOf_of_none seeds "" h
  have hcur : (computeTeam seeds feed prev p "").current_points = 0 := by
    rw [computeTeam_current_points, hsv, mul_zero]
  have hmax : (computeTeam seeds feed prev p "").team_max = 0 := by
    rw [computeTeam_team_max, hsv, hcur]
    simp
  refine ⟨hcur, hmax, ?_, ?_, ?_⟩ <;>
    (unfold computeParticipant
     rw [List.foldl_append, List.foldl_cons, List.foldl_nil])
  · show _ + (computeTeam seeds feed prev p "").current_points = _
    rw [hcur, add_zero]
  · show _ + (computeTeam seeds feed prev p "").team_max = _
    rw [hmax, add_zero]
  · rfl

/-- Witness for C9's amended theorem: with picks `["TeamA", ""]` the
blank slot leaves the current score unchanged but adds its own entry to
the details. -/
theorem blank_pick_contributes_nothing_wit :
    (computeParticipant seedsA2 noFeed emptyPrev "Alice"
        (["TeamA"] ++ [""])).current =
      (computeParticipant seedsA2 noFeed emptyPrev "Alice"
        ["TeamA"]).current ∧
    (computeParticipant seedsA2 noFeed emptyPrev "Alice"
        (["TeamA"] ++ [""])).team_data =
      (computeParticipant seedsA2 noFeed emptyPrev "Alice"
        ["TeamA"]).team_data ++
        [("", teamDetailOf (computeTeam seedsA2 noFeed emptyPrev "Alice" ""))] := by
  have h := blank_pick_contributes_nothing seedsA2 noFeed emptyPrev "Alice"
    ["TeamA"] (by decide)
  exact ⟨h.2.2.1, h.2.2.2.2⟩

/-- One picked team's current points stay below its ceiling when its
parsed seed value is nonnegative and its total wins respect the cap. -/
theorem computeTeam_current_le_max (seeds : String → Option CellVal)
    (feed : Feed) (prev : String → String → Option TeamRec) (p t : String)
    (hsv : 0 ≤ seedValOf seeds t)
    (hw : (computeTeam seeds feed prev p t).total_wins ≤ max_wins) :
    (computeTeam seeds feed prev p t).current_points ≤
      (computeTeam seeds feed prev p t).team_max := by
  rw [computeTeam_team_max]
  by_cases hl : (computeTeam seeds feed prev p t).lost
  · rw [if_pos hl]
  · rw [if_neg hl, computeTeam_current_points]
    calc ((computeTeam seeds feed prev p t).total_wins : Int) *
          seedValOf seeds t
        ≤ (max_wins : Int) * seedValOf seeds t := by
          apply mul_le_mul_of_nonneg_right _ hsv
          exact_mod_cast hw
      _ = seedValOf seeds t * (max_wins : Int) := mul_comm _ _

/-- The participant fold preserves `current ≤ maxScore` when every picked
team satisfies the per-team bound. -/
theorem foldl_partStep_le (seeds : String → Option CellVal) (feed : Feed)
    (prev : String → String → Option TeamRec) (p : String) :
    ∀ (teams : List String) (acc : PartTotals),
      acc.current ≤ acc.maxScore →
      (∀ t ∈ teams, 0 ≤ seedValOf seeds t) →
      (∀ t ∈ teams, (computeTeam seeds feed prev p t).total_wins ≤ max_wins) →
      (teams.foldl (partStep seeds feed prev p) acc).current ≤
        (teams.foldl (partStep seeds feed prev p) acc).maxScore := by
  intro teams
  induction teams with
  | nil => intro acc hacc _ _; exact hacc
  | cons t ts ih =>
    intro acc hacc hsv hw
    rw [List.foldl_cons]
    refine ih _ ?_ (fun u hu => hsv u (List.mem_cons_of_mem t hu))
      (fun u hu => hw u (List.mem_cons_of_mem t hu))
    show acc.current + _ ≤ acc.maxScore + _
    have := computeTeam_current_le_max seeds feed prev p t
      (hsv t (List.mem_cons_self t ts)) (hw t (List.mem_cons_self t ts))
    omega

/-- C10 (amended): when every picked team's parsed seed value is
nonnegative and its total wins are at most `max_wins`, a participant's
max score is at least their current score; and dropping the wins cap
breaks the bound — a non-eliminated seed-1 team credited seven wins has
current points 7 above its ceiling 6. -/
theorem max_score_dominates_current :
    ∀ (seeds : String → Option CellVal) (feed : Feed)
      (prev : String → String → Option TeamRec) (p : String)
      (teams : List String),
      ((∀ t ∈ teams, 0 ≤ seedValOf seeds t) →
       (∀ t ∈ teams, (computeTeam seeds feed prev p t).total_wins ≤ max_wins) →
        (computeParticipant seeds feed prev p teams).current ≤
          (computeParticipant seeds feed prev p teams).maxScore) ∧
      ((computeTeam seedsA1 feedWinA7 emptyPrev "Alice" "TeamA").team_max <
        (computeTeam seedsA1 feedWinA7 emptyPrev "Alice" "TeamA").current_points) := by
  intro seeds feed prev p teams
  constructor
  · intro hsv hw
    exact foldl_partStep_le seeds feed prev p teams _ le_rfl hsv hw
  · decide

/-- Witness for C10's amended theorem: on the spec §8 scenario every seed
is nonnegative and every total stays within the cap, so Alice's max score
dominates her current score. -/
theorem max_score_dominates_current_wit :
    (computeParticipant aliceSeeds aliceFeed emptyPrev "Alice"
        ["TeamA", "TeamB", "TeamC", "TeamD"]).current ≤
      (computeParticipant aliceSeeds aliceFeed emptyPrev "Alice"
        ["TeamA", "TeamB", "TeamC", "TeamD"]).maxScore := by
  refine (max_score_dominates_current aliceSeeds aliceFeed emptyPrev "Alice"
      ["TeamA", "TeamB", "TeamC", "TeamD"]).1 ?_ ?_
  · decide
  · decide

/-- A step of the scan returns either its accumulator or the new
worksheet, the latter only when the title is a date strictly before
today. -/
theorem scanStep_cases (today : String) (acc : Option Worksheet)
    (ws b : Worksheet) (h : scanStep today acc ws = some b) :
    acc = some b ∨
      (b = ws ∧ isDateTitle ws.title = true ∧ ws.title < today) := by
  unfold scanStep at h
  by_cases hc : isDateTitle ws.title = true ∧ ws.title < today
  · rw [if_pos hc] at h
    rcases acc with _ | a <;> dsimp only at h
    · right
      exact ⟨(Option.some.injEq ws b).mp h |>.symm, hc.1, hc.2⟩
    · by_cases h2 : a.title < ws.title
      · rw [if_pos h2] at h
        right
        exact ⟨((Option.some.injEq ws b).mp h).symm, hc.1, hc.2⟩
      · rw [if_neg h2] at h
        left
        exact h
  · rw [if_neg hc] at h
    left
    exact h

/-- A step started from a kept worksheet keeps one with a title at least
as large. -/
theorem scanStep_pres (today : String) (a : Worksheet) (ws : Worksheet) :
    ∃ c, scanStep today (some a) ws = some c ∧ a.title ≤ c.title := by
  unfold scanStep
  by_cases hc : isDateTitle ws.title = true ∧ ws.title < today
  · rw [if_pos hc]
    dsimp only
    by_cases h2 : a.title < ws.title
    · rw [if_pos h2]
      exact ⟨ws, rfl, le_of_lt h2⟩
    · rw [if_neg h2]
      exact ⟨a, rfl, le_rfl⟩
  · rw [if_neg hc]
    exact ⟨a, rfl, le_rfl⟩

/-- A step fed a qualifying worksheet keeps one with a title at least as
large as the new title. -/
theorem scanStep_dom (today : String) (acc : Option Worksheet)
    (ws : Worksheet) (h1 : isDateTitle ws.title = true)
    (h2 : ws.title < today) :
    ∃ c, scanStep today acc ws = some c ∧ ws.title ≤ c.title := by
  unfold scanStep
  rw [if_pos ⟨h1, h2⟩]
  rcases acc with _ | a <;> dsimp only
  · exact ⟨ws, rfl, le_rfl⟩
  · by_cases h3 : a.title < ws.title
    · rw [if_pos h3]
      exact ⟨ws, rfl, le_rfl⟩
    · rw [if_neg h3]
      exact ⟨a, rfl, not_lt.mp h3⟩

/-- A step skips a non-qualifying worksheet. -/
theorem scanStep_skip (today : String) (acc : Option Worksheet)
    (ws : Worksheet)
    (h : ¬ (isDateTitle ws.title = true ∧ ws.title < today)) :
    scanStep today acc ws = acc := if_neg h

/-- The scan keeps a worksheet once it holds one. -/
theorem foldl_scanStep_keep (today : String) :
    ∀ (l : List Worksheet) (a : Worksheet),
      ∃ b, l.foldl (scanStep today) (some a) = some b ∧ a.title ≤ b.title := by
  intro l
  induction l with
  | nil => intro a; exact ⟨a, rfl, le_rfl⟩
  | cons x t ih =>
    intro a
    obtain ⟨c, hc, hac⟩ := scanStep_pres today a x
    obtain ⟨b, hb, hcb⟩ := ih c
    rw [List.foldl_cons, hc]
    exact ⟨b, hb, hac.trans hcb⟩

/-- What the scan returns comes from its input or its accumulator, and
qualifies. -/
theorem foldl_scanStep_src (today : String) :
    ∀ (l : List Worksheet) (acc : Option Worksheet) (b : Worksheet),
      l.foldl (scanStep today) acc = some b →
      acc = some b ∨
        (b ∈ l ∧ isDateTitle b.title = true ∧ b.title < today) := by
  intro l
  induction l with
  | nil => intro acc b h; left; exact h
  | cons x t ih =>
    intro acc b h
    rw [List.foldl_cons] at h
    rcases ih (scanStep today acc x) b h with hs | ⟨hmem, hval⟩
    · rcases scanStep_cases today acc x b hs with hs2 | ⟨heq, hval⟩
      · left; exact hs2
      · right
        rw [heq]
        exact ⟨List.mem_cons_self x t, hval⟩
    · right; exact ⟨List.mem_cons_of_mem x hmem, hval⟩

/-- The scan's result title dominates the accumulator's title. -/
theorem foldl_scanStep_mono (today : String) :
    ∀ (l : List Worksheet) (a b : Worksheet),
      l.foldl (scanStep today) (some a) = some b → a.title ≤ b.title := by
  intro l a b h
  obtain ⟨c, hc, hac⟩ := foldl_scanStep_keep today l a
  rw [h] at hc
  cases hc
  exact hac

/-- The scan's result title dominates every qualifying input title. -/
theorem foldl_scanStep_max (today : String) :
    ∀ (l : List Worksheet) (acc : Option Worksheet) (b : Worksheet),
      l.foldl (scanStep today) acc = some b →
      ∀ u ∈ l, isDateTitle u.title = true → u.title < today →
        u.title ≤ b.title := by
  intro l
  induction l with
  | nil => intro acc b _ u hu; cases hu
  | cons x t ih =>
    intro acc b h u hu h1 h2
    rw [List.foldl_cons] at h
    rcases List.mem_cons.mp hu with hux | hut
    · obtain ⟨c, hc, hxc⟩ := scanStep_dom today acc x (hux ▸ h1) (hux ▸ h2)
      rw [hc] at h
      obtain ⟨b2, hb2, hcb⟩ := foldl_scanStep_keep today t c
      rw [h] at hb2
      cases hb2
      rw [hux]
      exact hxc.trans hcb
    · exact ih (scanStep today acc x) b h u hut h1 h2

/-- A scan over worksheets none of which qualifies returns its
accumulator. -/
theorem foldl_scanStep_none (today : String) :
    ∀ (l : List Worksheet),
      (∀ u ∈ l, ¬ (isDateTitle u.title = true ∧ u.title < today)) →
      ∀ acc, l.foldl (scanStep today) acc = acc := by
  intro l
  induction l with
  | nil => intro _ acc; rfl
  | cons x t ih =>
    intro h acc
    rw [List.foldl_cons, scanStep_skip today acc x (h x (List.mem_cons_self x t))]
    exact ih (fun u hu => h u (List.mem_cons_of_mem x hu)) acc

/-- A scan over worksheets at least one of which qualifies returns a
worksheet. -/
theorem foldl_scanStep_ex (today : String) :
    ∀ (l : List Worksheet) (acc : Option Worksheet) (u : Worksheet),
      u ∈ l → isDateTitle u.title = true → u.title < today →
      ∃ b, l.foldl (scanStep today) acc = some b := by
  intro l
  induction l with
  | nil => intro acc u hu; cases hu
  | cons x t ih =>
    intro acc u hu h1 h2
    rw [List.foldl_cons]
    rcases List.mem_cons.mp hu with hux | hut
    · obtain ⟨c, hc, _⟩ := scanStep_dom today acc x (hux ▸ h1) (hux ▸ h2)
      rw [hc]
      obtain ⟨b, hb, _⟩ := foldl_scanStep_keep today t c
      exact ⟨b, hb⟩
    · exact ih (scanStep today acc x) u hut h1 h2

/-- C6: the baseline worksheet the loader selects is a date-titled tab
strictly before today whose title dominates (in the lexicographic order,
which on the zero-padded `YYYY-MM-DD` titles that `archive_scores` writes
is date order) every other date-titled tab strictly before today; a tab
dated today or later is never selected; some tab is selected whenever one
qualifies; and with no qualifying tab the loader yields no record, so the
engine's baseline for every (participant, team) pair defaults to 0 wins
and not eliminated. -/
theorem baseline_is_latest_prior_snapshot :
    ∀ (sheets : List Worksheet) (today : String),
      (∀ ws, scanPrev sheets today = some ws →
        isDateTitle ws.title = true ∧ ws.title < today ∧ ws ∈ sheets ∧
        load_previous_team_data sheets today = ws.data ∧
        ∀ u ∈ sheets, isDateTitle u.title = true → u.title < today →
          u.title ≤ ws.title) ∧
      ((∃ u ∈ sheets, isDateTitle u.title = true ∧ u.title < today) →
        ∃ ws, scanPrev sheets today = some ws) ∧
      (scanPrev sheets today = none →
        ∀ (seeds : String → Option CellVal) (feed : Feed) (p t : String),
          load_previous_team_data sheets today p t = none ∧
          (computeTeam seeds feed (load_previous_team_data sheets today)
              p t).total_wins = feed.live t ∧
          (computeTeam seeds feed (load_previous_team_data sheets today)
              p t).lost = feed.losers t) := by
  intro sheets today
  refine ⟨?_, ?_, ?_⟩
  · intro ws hws
    rcases foldl_scanStep_src today sheets none ws hws with hno | ⟨hmem, h1, h2⟩
    · cases hno
    · refine ⟨h1, h2, hmem, ?_, foldl_scanStep_max today sheets none ws hws⟩
      unfold load_previous_team_data
      rw [show scanPrev sheets today = some ws from hws]
  · rintro ⟨u, hu, h1, h2⟩
    exact foldl_scanStep_ex today sheets none u hu h1 h2
  · intro hnone seeds feed p t
    have hload : load_previous_team_data sheets today = fun _ _ => none := by
      unfold load_previous_team_data
      rw [show scanPrev sheets today = none from hnone]
    rw [hload]
    refine ⟨rfl, ?_, ?_⟩
    · rw [computeTeam_total_wins]
      simp
    · rw [computeTeam_lost]
      simp
